import Mathlib

/-!
Verification of the record-linkage graph engine of `app.py`.

Shallow embedding conventions:
* Python strings are `String` (node identities) or `List Char`
  (for the label-truncation utility, where per-character slicing matters).
* Python floats that only ever hold exact small fractions are `Rat`.
* A Python function that can raise is embedded as an `Option`-returning
  function, `none` standing for the raised exception.
* The networkx library functions called by the source
  (`Graph.add_node`, `Graph.add_edge`, `degree`, `density`,
  `degree_centrality`, `average_clustering`, `number_connected_components`)
  are embedded from their library semantics, since the source delegates
  to them.
-/

namespace FraudConnect

/-- The four input columns of `create_connection_graph`'s `colors` table
(`col1`..`col4`); a key outside this set would raise `KeyError` at
`colors[col]`, so the input type is fixed to these columns. -/
inductive Col where
  | col1
  | col2
  | col3
  | col4
deriving DecidableEq

/-- A networkx undirected graph as the source uses it: an insertion-ordered
node list (node identity with its current `type` attribute, `none` when the
node was created implicitly by `add_edge` and carries no `type`), and an
insertion-ordered edge list holding each unordered pair once, in the
orientation it was first inserted.  The cosmetic `color` attribute is a pure
function of `type` (the `colors` table) and is not modelled separately. -/
structure Graph where
  nodes : List (String × Option Col)
  edges : List (String × String)
deriving DecidableEq

def emptyGraph : Graph := { nodes := [], edges := [] }

def nodeNames (g : Graph) : List String := g.nodes.map (fun p => p.1)

def hasNode (g : Graph) (v : String) : Bool :=
  g.nodes.any (fun p => decide (p.1 = v))

/-- `G.add_node(v, color=..., type=c)`: appends a fresh node, or updates the
attributes of an existing node in place (networkx keeps insertion order). -/
def addNode (g : Graph) (v : String) (c : Col) : Graph :=
  if hasNode g v then
    { g with nodes := g.nodes.map (fun p => if p.1 = v then (p.1, some c) else p) }
  else
    { g with nodes := g.nodes ++ [(v, some c)] }

/-- The implicit node creation performed by `G.add_edge`: a missing endpoint
is appended with an empty attribute dictionary; an existing node is left
untouched. -/
def ensureNode (g : Graph) (v : String) : Graph :=
  if hasNode g v then g else { g with nodes := g.nodes ++ [(v, none)] }

/-- Whether the unordered pair `{a, b}` is already an edge of `g`. -/
def edgeMem (g : Graph) (a b : String) : Bool :=
  g.edges.any (fun e => decide ((e.1 = a ∧ e.2 = b) ∨ (e.1 = b ∧ e.2 = a)))

/-- `G.add_edge(a, b)`: ensure both endpoints exist, then record the
unordered pair unless it is already present (networkx stores at most one
edge per pair; `a = b` yields a self-loop, which networkx permits). -/
def addEdge (g : Graph) (a b : String) : Graph :=
  let g1 := ensureNode (ensureNode g a) b
  if edgeMem g1 a b then g1 else { g1 with edges := g1.edges ++ [(a, b)] }

/-- The node phase of `create_connection_graph`: for every column in order
and every (non-padding) value of that column in order, `add_node` it, the
Python truthiness test `if value:` skipping the empty string. -/
def addFieldNodes (g : Graph) (c : Col) (values : List String) : Graph :=
  values.foldl (fun g v => if v = "" then g else addNode g v c) g

def addNodesPhase (g : Graph) (data : List (Col × List String)) : Graph :=
  data.foldl (fun g p => addFieldNodes g p.1 p.2) g

/-- `max(len(values) for values in data_dict.values())`. -/
def maxLen (data : List (Col × List String)) : Nat :=
  data.foldl (fun m p => max m p.2.length) 0

/-- `[str(val) for val in df.loc[idx] if pd.notna(val)]`: the values present
at row `i`, in column order; positions beyond a column's length are the
`None` padding that `pd.notna` drops. -/
def rowValues (data : List (Col × List String)) (i : Nat) : List String :=
  data.filterMap (fun p => p.2[i]?)

/-- The double loop `for i ... for j in range(i+1, ...)` adding an edge for
every ordered position pair of a row's value list. -/
def addPairs : Graph → List String → Graph
  | g, [] => g
  | g, v :: rest => addPairs (rest.foldl (fun g w => addEdge g v w) g) rest

def addEdgesPhase (g : Graph) (data : List (Col × List String)) : Graph :=
  (List.range (maxLen data)).foldl (fun g i => addPairs g (rowValues data i)) g

/-- `create_connection_graph(data_dict)`.  On an empty mapping the source
raises `ValueError` (`max()` of an empty sequence), embedded as `none`. -/
def create_connection_graph (data : List (Col × List String)) : Option Graph :=
  if data.isEmpty then none
  else some (addEdgesPhase (addNodesPhase emptyGraph data) data)

/-! ## Metrics (`calculate_metrics` and the networkx functions it calls) -/

/-- networkx degree: incident edge count, a self-loop counting twice. -/
def degree (g : Graph) (v : String) : Nat :=
  g.edges.foldl (fun acc e =>
    acc + (if e.1 = v then 1 else 0) + (if e.2 = v then 1 else 0)) 0

/-- `nx.degree_centrality`, in node insertion order: each degree scaled by
`1 / (n - 1)`; on a graph with at most one node, networkx returns `1` for
every node. -/
def degreeCentrality (g : Graph) : List (String × Rat) :=
  if g.nodes.length ≤ 1 then g.nodes.map (fun p => (p.1, (1 : Rat)))
  else g.nodes.map (fun p =>
    (p.1, (degree g p.1 : Rat) / ((g.nodes.length : Rat) - 1)))

/-- `nx.density`: `0` when there are no edges or at most one node, else
`2m / (n(n-1))`. -/
def density (g : Graph) : Rat :=
  if g.edges.length = 0 ∨ g.nodes.length ≤ 1 then 0
  else (2 * g.edges.length : Rat) / ((g.nodes.length : Rat) * ((g.nodes.length : Rat) - 1))

/-- The distinct neighbours of `v` other than `v` itself
(`set(G[v]) - {v}` in networkx's clustering code). -/
def nbrs (g : Graph) (v : String) : List String :=
  (nodeNames g).filter (fun w => decide (w ≠ v) && edgeMem g v w)

/-- Twice the triangle count through `v`: for each neighbour `w`, the number
of common neighbours of `v` and `w`. -/
def triDeg (g : Graph) (v : String) : Nat :=
  ((nbrs g v).map (fun w => ((nbrs g w).filter (fun x => (nbrs g v).contains x)).length)).sum

/-- networkx unweighted local clustering: `t / (d (d - 1))`, `0` when `t = 0`. -/
def localClustering (g : Graph) (v : String) : Rat :=
  let d := (nbrs g v).length
  let t := triDeg g v
  if t = 0 then 0 else (t : Rat) / ((d : Rat) * ((d : Rat) - 1))

/-- `nx.average_clustering`: the mean of the local coefficients; on the
empty graph the division `sum(...) / len(G)` raises `ZeroDivisionError`,
embedded as `none`. -/
def avgClustering (g : Graph) : Option Rat :=
  if g.nodes.isEmpty then none
  else some (((g.nodes.map (fun p => localClustering g p.1)).sum) / (g.nodes.length : Rat))

/-- One breadth step of reachability: adjoin every node adjacent to the
current set. -/
def stepReach (g : Graph) (s : List String) : List String :=
  (nodeNames g).foldl (fun acc w =>
    if acc.contains w then acc
    else if acc.any (fun u => edgeMem g u w) then acc ++ [w] else acc) s

def iterSteps (g : Graph) : Nat → List String → List String
  | 0, s => s
  | n + 1, s => iterSteps g n (stepReach g s)

/-- All nodes reachable from `v` (the node count bounds the diameter, so
that many breadth steps saturate). -/
def reachList (g : Graph) (v : String) : List String :=
  iterSteps g g.nodes.length [v]

/-- `nx.number_connected_components`: one representative per component,
collected in node insertion order. -/
def numberConnectedComponents (g : Graph) : Nat :=
  ((nodeNames g).foldl (fun reps v =>
    if reps.any (fun r => (reachList g r).contains v) then reps else reps ++ [v]) []).length

/-- `np.mean([d for n, d in G.degree()])`.  On the empty graph `np.mean`
yields `NaN` (without raising); that case is unobservable through
`calculate_metrics`, which fails on the empty graph before returning, so the
`Rat` division convention `0 / 0 = 0` is harmless here. -/
def avgConnections (g : Graph) : Rat :=
  ((nodeNames g).map (fun v => (degree g v : Rat))).sum / (g.nodes.length : Rat)

/-- Stable insertion of `x` into a descending-by-value list: `x` passes the
strictly greater entries and lands before every entry of equal or smaller
value, as Python's stable `sorted(..., reverse=True)` orders it. -/
def insertDesc (x : String × Rat) : List (String × Rat) → List (String × Rat)
  | [] => [x]
  | y :: ys => if x.2 < y.2 then y :: insertDesc x ys else x :: y :: ys

/-- Stable sort, descending by the second component: the behaviour of
`sorted(items, key=lambda x: x[1], reverse=True)`. -/
def sortDesc : List (String × Rat) → List (String × Rat)
  | [] => []
  | x :: xs => insertDesc x (sortDesc xs)

/-- The dictionary built by `calculate_metrics` (lines 27–39).  The
`communities` entry, computed afterwards in a `try/except`, is not needed by
any stated property and is not modelled. -/
structure Metrics where
  total_nodes : Nat
  total_connections : Nat
  avg_connections : Rat
  density : Rat
  connected_components : Nat
  avg_clustering : Rat
  most_central_nodes : List (String × Rat)
deriving DecidableEq

/-- `calculate_metrics(G)`: on the empty graph `nx.average_clustering`
raises `ZeroDivisionError` while the dictionary is being built, so the call
returns nothing (`none`); otherwise the metrics dictionary is returned. -/
def calculate_metrics (g : Graph) : Option Metrics :=
  match avgClustering g with
  | none => none
  | some ac =>
    some { total_nodes := g.nodes.length
           total_connections := g.edges.length
           avg_connections := avgConnections g
           density := density g
           connected_components := numberConnectedComponents g
           avg_clustering := ac
           most_central_nodes := (sortDesc (degreeCentrality g)).take 5 }

/-! ## Label truncation (`truncate_text`) -/

/-- Python's tail slice `s[-k:]` on a character list: for `k = 0` the slice
is `s[0:]`, the whole string (since `-0 == 0`); otherwise the last `k`
characters. -/
def pyTailSlice (s : List Char) (k : Nat) : List Char :=
  if k = 0 then s else s.drop (s.length - k)

def dots : List Char := ['.', '.', '.']

/-- `truncate_text(text, max_length, truncate_start)`. -/
def truncate_text (text : List Char) (maxLength : Nat) (truncateStart : Bool) : List Char :=
  if text.length ≤ maxLength then text
  else if truncateStart then dots ++ pyTailSlice text maxLength
  else text.take maxLength ++ dots

/-! ## Layout dispatch (`plot_graph`, lines 112–118) -/

/-- The `viz_settings` dictionary assembled at lines 275–291. -/
structure VizSettings where
  max_label_length : Nat
  truncate_start : Bool
  min_node_size : Nat
  max_node_size : Nat
  layout : String
  show_legend : Bool
  node_alpha : Nat
  edge_alpha : Rat
  background_color : String
  edge_color : String
  edge_width : Rat
  spacing : Rat
  font_size : Nat
  node_edge_color : String
  node_edge_width : Rat
deriving DecidableEq

/-- The layout invocation `plot_graph` performs: which networkx layout
function is called and with which arguments.  The spring call passes only
`k=spacing`; the `seed` argument keeps networkx's default `None`. -/
inductive LayoutCall where
  | spring (k : Rat) (seed : Option Nat)
  | circular
  | kamadaKawai
deriving DecidableEq

/-- The dispatch at lines 112–118: `'spring'` and `'circular'` are matched
explicitly; every other layout name falls into the final `else` and is given
the Kamada-Kawai layout. -/
def chooseLayout (s : VizSettings) : LayoutCall :=
  if s.layout = "spring" then LayoutCall.spring s.spacing none
  else if s.layout = "circular" then LayoutCall.circular
  else LayoutCall.kamadaKawai

/-- The seed argument carried by a layout invocation, when it has one. -/
def LayoutCall.seedArg : LayoutCall → Option Nat
  | spring _ s => s
  | circular => none
  | kamadaKawai => none

/-! ## Derived notions used to state the properties -/

/-- The `type` attribute the built graph records for value `v`: the entry of
the first node named `v`, flattened so that a missing node and a node
carrying no `type` attribute both give `none`. -/
def nodeTypeOf (g : Graph) (v : String) : Option Col :=
  match g.nodes.find? (fun p => decide (p.1 = v)) with
  | some p => p.2
  | none => none

/-- The last column, in the processing order of the node phase, whose value
list contains `v`. -/
def lastFieldOf (data : List (Col × List String)) (v : String) : Option Col :=
  data.foldl (fun acc p => if v ∈ p.2 then some p.1 else acc) none

/-- Two edges are the same unordered pair. -/
def samePair (e f : String × String) : Prop :=
  (e.1 = f.1 ∧ e.2 = f.2) ∨ (e.1 = f.2 ∧ e.2 = f.1)

instance (e f : String × String) : Decidable (samePair e f) := by
  unfold samePair
  infer_instance

/-- An edge list with no parallel edges: no two entries denote the same
unordered pair. -/
def EdgesSimple (l : List (String × String)) : Prop :=
  l.Pairwise (fun e f => ¬ samePair e f)

/-- A concrete settings value with the source's default slider values and
the spring layout selected. -/
def springSettings : VizSettings :=
  { max_label_length := 20
    truncate_start := false
    min_node_size := 2000
    max_node_size := 4000
    layout := "spring"
    show_legend := true
    node_alpha := 200
    edge_alpha := 1/5
    background_color := "#f0f2f6"
    edge_color := "#2c3e50"
    edge_width := 3/2
    spacing := 3/2
    font_size := 9
    node_edge_color := "#FFFFFF"
    node_edge_width := 2 }

/-- The same settings with a layout name that is not a known algorithm. -/
def bogusSettings : VizSettings :=
  { springSettings with layout := "fruchterman" }

/-- The graph built from `col1 = [b]`, `col2 = [a]`: nodes in insertion
order `b, a`, one edge. -/
def gBA : Graph := ⟨[("b", some Col.col1), ("a", some Col.col2)], [("b", "a")]⟩

/-- The graph built from the documented example `A = [1,2,1]`,
`B = [x,y,x]`. -/
def gC8 : Graph :=
  ⟨[("1", some Col.col1), ("2", some Col.col1), ("x", some Col.col2), ("y", some Col.col2)],
   [("1", "x"), ("2", "y")]⟩

/-- A one-node, zero-edge graph. -/
def gSingle : Graph := ⟨[("a", none)], []⟩

/-- The graph built from `col1 = [v]`, `col2 = [w, v]`: the value `"v"`
occurs under both fields and ends up tagged `col2`. -/
def gVW : Graph := ⟨[("v", some Col.col2), ("w", some Col.col2)], [("v", "w")]⟩

/-- The metrics dictionary `calculate_metrics` yields for `gSingle`: note
the degree centrality `1` reported for the single node. -/
def mSingle : Metrics :=
  { total_nodes := 1
    total_connections := 0
    avg_connections := 0
    density := 0
    connected_components := 1
    avg_clustering := 0
    most_central_nodes := [("a", 1)] }

/-! ## Helper lemmas -/

theorem avgClustering_eq_none_iff (g : Graph) : avgClustering g = none ↔ g.nodes = [] := by
  unfold avgClustering
  by_cases h : g.nodes = []
  · simp [h]
  · simp [h, List.isEmpty_iff]

theorem map_most_central (g : Graph) (h : g.nodes ≠ []) :
    (calculate_metrics g).map Metrics.most_central_nodes
      = some ((sortDesc (degreeCentrality g)).take 5) := by
  unfold calculate_metrics
  cases havg : avgClustering g with
  | none => exact absurd ((avgClustering_eq_none_iff g).mp havg) h
  | some ac => rfl

theorem degreeCentrality_gBA : degreeCentrality gBA = [("b", 1), ("a", 1)] := by
  norm_num [degreeCentrality, degree, gBA]
  all_goals decide

theorem edges_ensureNode (g : Graph) (v : String) : (ensureNode g v).edges = g.edges := by
  unfold ensureNode
  split <;> rfl

theorem edgeMem_ensureNode (g : Graph) (v a b : String) :
    edgeMem (ensureNode g v) a b = edgeMem g a b := by
  unfold edgeMem
  rw [edges_ensureNode]

theorem addEdge_eq (g : Graph) (a b : String) :
    addEdge g a b
      = if edgeMem g a b = true then ensureNode (ensureNode g a) b
        else { ensureNode (ensureNode g a) b with
               edges := (ensureNode (ensureNode g a) b).edges ++ [(a, b)] } := by
  show (if edgeMem (ensureNode (ensureNode g a) b) a b = true
          then ensureNode (ensureNode g a) b
          else { ensureNode (ensureNode g a) b with
                 edges := (ensureNode (ensureNode g a) b).edges ++ [(a, b)] }) = _
  rw [edgeMem_ensureNode, edgeMem_ensureNode]

theorem edgeMem_push (g : Graph) (u w a b : String) :
    edgeMem { g with edges := g.edges ++ [(u, w)] } a b
      = (edgeMem g a b || decide ((u = a ∧ w = b) ∨ (u = b ∧ w = a))) := by
  unfold edgeMem
  simp [List.any_append]

theorem edgeMem_symm (g : Graph) (a b : String) : edgeMem g a b = edgeMem g b a := by
  unfold edgeMem
  congr 1
  funext e
  exact decide_eq_decide.mpr (by tauto)

theorem foldl_preserve {α : Type} {P : Graph → Prop} {f : Graph → α → Graph}
    (hf : ∀ g x, P g → P (f g x)) :
    ∀ (l : List α) (g : Graph), P g → P (l.foldl f g)
  | [], _, h => h
  | x :: xs, g, h => foldl_preserve hf xs (f g x) (hf g x h)

theorem edgesSimple_addEdge {g : Graph} (h : EdgesSimple g.edges) (a b : String) :
    EdgesSimple (addEdge g a b).edges := by
  rw [addEdge_eq]
  by_cases hm : edgeMem g a b = true
  · rw [if_pos hm, edges_ensureNode, edges_ensureNode]
    exact h
  · rw [if_neg hm]
    show EdgesSimple ((ensureNode (ensureNode g a) b).edges ++ [(a, b)])
    rw [edges_ensureNode, edges_ensureNode]
    unfold EdgesSimple at h ⊢
    refine List.pairwise_append.mpr ⟨h, List.pairwise_singleton _ _, ?_⟩
    intro e he f hf
    rcases List.mem_singleton.mp hf with rfl
    intro hsp
    apply hm
    unfold edgeMem
    rw [List.any_eq_true]
    exact ⟨e, he, decide_eq_true hsp⟩

theorem edgesSimple_addPairs : ∀ (vs : List String) (g : Graph),
    EdgesSimple g.edges → EdgesSimple (addPairs g vs).edges
  | [], _, h => h
  | v :: rest, g, h => by
    show EdgesSimple (addPairs (rest.foldl (fun g w => addEdge g v w) g) rest).edges
    apply edgesSimple_addPairs rest
    have hf : ∀ (g' : Graph) (w : String), EdgesSimple g'.edges →
        EdgesSimple (addEdge g' v w).edges := fun _ w hg => edgesSimple_addEdge hg v w
    exact foldl_preserve hf rest g h

theorem edges_addNode (g : Graph) (v : String) (c : Col) : (addNode g v c).edges = g.edges := by
  unfold addNode
  split <;> rfl

theorem edges_addFieldNodes (c : Col) : ∀ (vs : List String) (g : Graph),
    (addFieldNodes g c vs).edges = g.edges
  | [], _ => rfl
  | v :: vs, g => by
    show (addFieldNodes (if v = "" then g else addNode g v c) c vs).edges = g.edges
    rw [edges_addFieldNodes c vs]
    split
    · rfl
    · exact edges_addNode g v c

theorem edges_addNodesPhase : ∀ (data : List (Col × List String)) (g : Graph),
    (addNodesPhase g data).edges = g.edges
  | [], _ => rfl
  | p :: ps, g => by
    show (addNodesPhase (addFieldNodes g p.1 p.2) ps).edges = g.edges
    rw [edges_addNodesPhase ps, edges_addFieldNodes]

theorem mem_insertDesc (x : String × Rat) :
    ∀ (l : List (String × Rat)) (y : String × Rat), y ∈ insertDesc x l → y = x ∨ y ∈ l := by
  intro l
  induction l with
  | nil =>
    intro y h
    simp only [insertDesc] at h
    exact Or.inl (List.mem_singleton.mp h)
  | cons z zs ih =>
    intro y h
    simp only [insertDesc] at h
    split at h
    · rcases List.mem_cons.mp h with rfl | h2
      · exact Or.inr (List.mem_cons_self _ _)
      · rcases ih y h2 with h3 | h4
        · exact Or.inl h3
        · exact Or.inr (List.mem_cons_of_mem z h4)
    · rcases List.mem_cons.mp h with rfl | h2
      · exact Or.inl rfl
      · exact Or.inr h2

theorem pairwise_insertDesc (x : String × Rat) :
    ∀ (l : List (String × Rat)), l.Pairwise (fun p q => q.2 ≤ p.2) →
      (insertDesc x l).Pairwise (fun p q => q.2 ≤ p.2) := by
  intro l
  induction l with
  | nil =>
    intro _
    simp only [insertDesc]
    exact List.pairwise_singleton _ _
  | cons z zs ih =>
    intro hp
    rcases List.pairwise_cons.mp hp with ⟨hz, hzs⟩
    simp only [insertDesc]
    split
    next hlt =>
      refine List.pairwise_cons.mpr ⟨?_, ih hzs⟩
      intro y hy
      rcases mem_insertDesc x zs y hy with rfl | hmem
      · exact le_of_lt hlt
      · exact hz y hmem
    next hge =>
      refine List.pairwise_cons.mpr ⟨?_, hp⟩
      intro y hy
      have hzx : z.2 ≤ x.2 := not_lt.mp hge
      rcases List.mem_cons.mp hy with rfl | hmem
      · exact hzx
      · exact le_trans (hz y hmem) hzx

theorem pairwise_sortDesc : ∀ (l : List (String × Rat)),
    (sortDesc l).Pairwise (fun p q => q.2 ≤ p.2)
  | [] => List.Pairwise.nil
  | x :: xs => pairwise_insertDesc x (sortDesc xs) (pairwise_sortDesc xs)

theorem length_insertDesc (x : String × Rat) :
    ∀ l : List (String × Rat), (insertDesc x l).length = l.length + 1 := by
  intro l
  induction l with
  | nil => rfl
  | cons z zs ih =>
    simp only [insertDesc]
    split
    · simp [ih]
    · simp

theorem length_sortDesc : ∀ l : List (String × Rat), (sortDesc l).length = l.length
  | [] => rfl
  | x :: xs => by
    show (insertDesc x (sortDesc xs)).length = xs.length + 1
    rw [length_insertDesc, length_sortDesc xs]

theorem length_degreeCentrality (g : Graph) : (degreeCentrality g).length = g.nodes.length := by
  unfold degreeCentrality
  split <;> simp

theorem filter_insertDesc_neg (x : String × Rat) (p : String × Rat → Bool) (hx : p x = false) :
    ∀ l : List (String × Rat), (insertDesc x l).filter p = l.filter p := by
  intro l
  induction l with
  | nil => simp [insertDesc, hx]
  | cons z zs ih =>
    simp only [insertDesc]
    split
    · simp [List.filter_cons, ih]
    · simp [List.filter_cons, hx]

theorem filter_insertDesc_pos (x : String × Rat) (c : Rat) (hx : x.2 = c) :
    ∀ l : List (String × Rat), l.Pairwise (fun p q => q.2 ≤ p.2) →
      (insertDesc x l).filter (fun y => decide (y.2 = c))
        = x :: l.filter (fun y => decide (y.2 = c)) := by
  intro l
  induction l with
  | nil =>
    intro _
    simp [insertDesc, hx]
  | cons z zs ih =>
    intro hp
    rcases List.pairwise_cons.mp hp with ⟨_, hzs⟩
    simp only [insertDesc]
    split
    next hlt =>
      have hzc : ¬ (z.2 = c) := by
        rw [hx] at hlt
        intro hc
        rw [hc] at hlt
        exact lt_irrefl c hlt
      simp only [List.filter_cons]
      rw [if_neg (by simp [hzc]), if_neg (by simp [hzc]), ih hzs]
    next hge =>
      simp only [List.filter_cons]
      rw [if_pos (by simp [hx])]

theorem filter_sortDesc (c : Rat) :
    ∀ l : List (String × Rat),
      (sortDesc l).filter (fun y => decide (y.2 = c)) = l.filter (fun y => decide (y.2 = c))
  | [] => rfl
  | x :: xs => by
    show (insertDesc x (sortDesc xs)).filter _ = _
    by_cases hx : x.2 = c
    · rw [filter_insertDesc_pos x c hx (sortDesc xs) (pairwise_sortDesc xs), filter_sortDesc c xs,
        List.filter_cons, if_pos (by simp [hx])]
    · rw [filter_insertDesc_neg x _ (by simp [hx]) (sortDesc xs), filter_sortDesc c xs,
        List.filter_cons, if_neg (by simp [hx])]

theorem nodes_addEdge (g : Graph) (a b : String) :
    (addEdge g a b).nodes = (ensureNode (ensureNode g a) b).nodes := by
  rw [addEdge_eq]
  split <;> rfl

theorem nodeTypeOf_congr {g h : Graph} (he : g.nodes = h.nodes) (v : String) :
    nodeTypeOf g v = nodeTypeOf h v := by
  unfold nodeTypeOf
  rw [he]

theorem nodeTypeOf_eq_bind (g : Graph) (v : String) :
    nodeTypeOf g v = (g.nodes.find? (fun p => decide (p.1 = v))).bind (fun p => p.2) := by
  unfold nodeTypeOf
  cases g.nodes.find? (fun p => decide (p.1 = v)) <;> rfl

theorem nodeTypeOf_ensureNode (g : Graph) (u v : String) :
    nodeTypeOf (ensureNode g u) v = nodeTypeOf g v := by
  rw [nodeTypeOf_eq_bind, nodeTypeOf_eq_bind]
  unfold ensureNode
  split
  · rfl
  · show ((g.nodes ++ [(u, (none : Option Col))]).find? (fun p => decide (p.1 = v))).bind
        (fun p => p.2) = _
    rw [List.find?_append]
    cases hf : g.nodes.find? (fun p => decide (p.1 = v)) with
    | some p => rfl
    | none =>
      by_cases hu : u = v
      · rw [List.find?_cons_of_pos _ (by simpa using hu)]
        rfl
      · rw [List.find?_cons_of_neg _ (by simpa using hu)]
        rfl

theorem find_setType (v : String) (c : Col) :
    ∀ l : List (String × Option Col), (∃ p ∈ l, p.1 = v) →
      (l.map (fun p => if p.1 = v then (p.1, some c) else p)).find? (fun p => decide (p.1 = v))
        = some (v, some c) := by
  intro l
  induction l with
  | nil =>
    intro h
    rcases h with ⟨p, hp, _⟩
    cases hp
  | cons q qs ih =>
    intro h
    simp only [List.map_cons]
    have hfst : (if q.1 = v then (q.1, some c) else q).1 = q.1 := by split <;> rfl
    by_cases hq : q.1 = v
    · rw [List.find?_cons_of_pos _ (by simp [hfst, hq])]
      rw [if_pos hq, hq]
    · rw [List.find?_cons_of_neg _ (by simp [hfst, hq])]
      apply ih
      rcases h with ⟨p, hp, hpv⟩
      rcases List.mem_cons.mp hp with rfl | hmem
      · exact absurd hpv hq
      · exact ⟨p, hmem, hpv⟩

theorem find_setType_other (v w : String) (c : Col) (hw : w ≠ v) :
    ∀ l : List (String × Option Col),
      ((l.map (fun p => if p.1 = v then (p.1, some c) else p)).find?
          (fun p => decide (p.1 = w))).bind (fun p => p.2)
        = (l.find? (fun p => decide (p.1 = w))).bind (fun p => p.2) := by
  intro l
  induction l with
  | nil => rfl
  | cons q qs ih =>
    simp only [List.map_cons]
    have hfst : (if q.1 = v then (q.1, some c) else q).1 = q.1 := by split <;> rfl
    by_cases hq : q.1 = w
    · rw [List.find?_cons_of_pos _ (by rw [hfst]; exact decide_eq_true hq),
        List.find?_cons_of_pos _ (by exact decide_eq_true hq)]
      have hqv : ¬ (q.1 = v) := by
        rw [hq]
        exact hw
      rw [if_neg hqv]
    · rw [List.find?_cons_of_neg _ (by rw [hfst]; simp [hq]),
        List.find?_cons_of_neg _ (by simp [hq])]
      exact ih

theorem nodeTypeOf_addNode_self (g : Graph) (v : String) (c : Col) :
    nodeTypeOf (addNode g v c) v = some c := by
  rw [nodeTypeOf_eq_bind]
  unfold addNode
  split
  next h =>
    show ((g.nodes.map (fun p => if p.1 = v then (p.1, some c) else p)).find?
        (fun p => decide (p.1 = v))).bind (fun p => p.2) = some c
    unfold hasNode at h
    rw [List.any_eq_true] at h
    rw [find_setType v c g.nodes (by
      rcases h with ⟨p, hp, hpt⟩
      exact ⟨p, hp, by simpa using hpt⟩)]
    rfl
  next h =>
    show ((g.nodes ++ [(v, some c)]).find? (fun p => decide (p.1 = v))).bind (fun p => p.2)
      = some c
    rw [List.find?_append]
    have hn : g.nodes.find? (fun p => decide (p.1 = v)) = none := by
      rw [List.find?_eq_none]
      intro x hx
      simp only [decide_eq_true_eq]
      intro hxv
      apply h
      unfold hasNode
      rw [List.any_eq_true]
      exact ⟨x, hx, by simp [hxv]⟩
    rw [hn, List.find?_cons_of_pos _ (by simp)]
    rfl

theorem nodeTypeOf_addNode_other (g : Graph) (v w : String) (c : Col) (hw : w ≠ v) :
    nodeTypeOf (addNode g v c) w = nodeTypeOf g w := by
  rw [nodeTypeOf_eq_bind, nodeTypeOf_eq_bind]
  unfold addNode
  split
  · show ((g.nodes.map (fun p => if p.1 = v then (p.1, some c) else p)).find?
        (fun p => decide (p.1 = w))).bind (fun p => p.2) = _
    rw [find_setType_other v w c hw g.nodes]
  · show ((g.nodes ++ [(v, some c)]).find? (fun p => decide (p.1 = w))).bind (fun p => p.2) = _
    rw [List.find?_append]
    cases hf : g.nodes.find? (fun p => decide (p.1 = w)) with
    | some p => rfl
    | none =>
      rw [List.find?_cons_of_neg _ (by simpa using hw.symm)]
      rfl

theorem nodeTypeOf_addFieldNodes (c : Col) (v : String) (hv : v ≠ "") :
    ∀ (vs : List String) (g : Graph),
      nodeTypeOf (addFieldNodes g c vs) v = if v ∈ vs then some c else nodeTypeOf g v := by
  intro vs
  induction vs with
  | nil =>
    intro g
    simp [addFieldNodes]
  | cons w ws ih =>
    intro g
    show nodeTypeOf (addFieldNodes (if w = "" then g else addNode g w c) c ws) v = _
    rw [ih]
    by_cases hmem : v ∈ ws
    · rw [if_pos hmem, if_pos (List.mem_cons_of_mem w hmem)]
    · rw [if_neg hmem]
      by_cases hw : w = v
      · subst hw
        rw [if_neg hv, nodeTypeOf_addNode_self, if_pos (List.mem_cons_self _ _)]
      · have hne : nodeTypeOf (if w = "" then g else addNode g w c) v = nodeTypeOf g v := by
          split
          · rfl
          · exact nodeTypeOf_addNode_other g w v c (Ne.symm hw)
        rw [hne, if_neg (by
          intro hmem2
          rcases List.mem_cons.mp hmem2 with h | h
          · exact hw h.symm
          · exact hmem h)]

theorem nodeTypeOf_addNodesPhase (v : String) (hv : v ≠ "") :
    ∀ (data : List (Col × List String)) (g : Graph),
      nodeTypeOf (addNodesPhase g data) v
        = data.foldl (fun acc p => if v ∈ p.2 then some p.1 else acc) (nodeTypeOf g v) := by
  intro data
  induction data with
  | nil => intro g; rfl
  | cons p ps ih =>
    intro g
    show nodeTypeOf (addNodesPhase (addFieldNodes g p.1 p.2) ps) v = _
    rw [ih, nodeTypeOf_addFieldNodes p.1 v hv p.2 g]
    rfl

theorem nodeTypeOf_addEdge (g : Graph) (a b v : String) :
    nodeTypeOf (addEdge g a b) v = nodeTypeOf g v := by
  rw [nodeTypeOf_congr (nodes_addEdge g a b) v, nodeTypeOf_ensureNode, nodeTypeOf_ensureNode]

theorem nodeTypeOf_addPairs (v : String) : ∀ (vs : List String) (g : Graph),
    nodeTypeOf (addPairs g vs) v = nodeTypeOf g v
  | [], _ => rfl
  | w :: rest, g => by
    show nodeTypeOf (addPairs (rest.foldl (fun g u => addEdge g w u) g) rest) v = _
    rw [nodeTypeOf_addPairs v rest]
    have hf : ∀ (g' : Graph) (u : String),
        nodeTypeOf g' v = nodeTypeOf g v → nodeTypeOf (addEdge g' w u) v = nodeTypeOf g v :=
      fun g' u hg => (nodeTypeOf_addEdge g' w u v).trans hg
    exact foldl_preserve hf rest g rfl

theorem nodeTypeOf_addEdgesPhase (data : List (Col × List String)) (g : Graph) (v : String) :
    nodeTypeOf (addEdgesPhase g data) v = nodeTypeOf g v := by
  unfold addEdgesPhase
  have hf : ∀ (g' : Graph) (i : Nat),
      nodeTypeOf g' v = nodeTypeOf g v →
        nodeTypeOf (addPairs g' (rowValues data i)) v = nodeTypeOf g v :=
    fun g' i hg => (nodeTypeOf_addPairs v (rowValues data i) g').trans hg
  exact foldl_preserve hf (List.range (maxLen data)) g rfl

theorem nodesDistinct_addNode {g : Graph} (h : g.nodes.Pairwise (fun p q => p.1 ≠ q.1))
    (v : String) (c : Col) :
    (addNode g v c).nodes.Pairwise (fun p q => p.1 ≠ q.1) := by
  unfold addNode
  split
  · show (g.nodes.map (fun p => if p.1 = v then (p.1, some c) else p)).Pairwise _
    rw [List.pairwise_map]
    refine h.imp ?_
    intro a b hab
    have ha : (if a.1 = v then (a.1, some c) else a).1 = a.1 := by split <;> rfl
    have hb : (if b.1 = v then (b.1, some c) else b).1 = b.1 := by split <;> rfl
    rw [ha, hb]
    exact hab
  next hhas =>
    show (g.nodes ++ [(v, some c)]).Pairwise _
    refine List.pairwise_append.mpr ⟨h, List.pairwise_singleton _ _, ?_⟩
    intro p hp q hq
    rcases List.mem_singleton.mp hq with rfl
    intro hpv
    apply hhas
    unfold hasNode
    rw [List.any_eq_true]
    exact ⟨p, hp, by simp [hpv]⟩

theorem nodesDistinct_ensureNode {g : Graph} (h : g.nodes.Pairwise (fun p q => p.1 ≠ q.1))
    (v : String) :
    (ensureNode g v).nodes.Pairwise (fun p q => p.1 ≠ q.1) := by
  unfold ensureNode
  split
  · exact h
  next hhas =>
    show (g.nodes ++ [(v, none)]).Pairwise _
    refine List.pairwise_append.mpr ⟨h, List.pairwise_singleton _ _, ?_⟩
    intro p hp q hq
    rcases List.mem_singleton.mp hq with rfl
    intro hpv
    apply hhas
    unfold hasNode
    rw [List.any_eq_true]
    exact ⟨p, hp, by simp [hpv]⟩

theorem nodesDistinct_addEdge {g : Graph} (h : g.nodes.Pairwise (fun p q => p.1 ≠ q.1))
    (a b : String) :
    (addEdge g a b).nodes.Pairwise (fun p q => p.1 ≠ q.1) := by
  rw [nodes_addEdge g a b]
  exact nodesDistinct_ensureNode (nodesDistinct_ensureNode h a) b

theorem nodesDistinct_addFieldNodes (c : Col) (vs : List String) (g : Graph)
    (h : g.nodes.Pairwise (fun p q => p.1 ≠ q.1)) :
    (addFieldNodes g c vs).nodes.Pairwise (fun p q => p.1 ≠ q.1) := by
  unfold addFieldNodes
  have hf : ∀ (g' : Graph) (w : String), g'.nodes.Pairwise (fun p q => p.1 ≠ q.1) →
      (if w = "" then g' else addNode g' w c).nodes.Pairwise (fun p q => p.1 ≠ q.1) := by
    intro g' w hg
    split
    · exact hg
    · exact nodesDistinct_addNode hg w c
  exact foldl_preserve hf vs g h

theorem nodesDistinct_addNodesPhase (data : List (Col × List String)) (g : Graph)
    (h : g.nodes.Pairwise (fun p q => p.1 ≠ q.1)) :
    (addNodesPhase g data).nodes.Pairwise (fun p q => p.1 ≠ q.1) := by
  unfold addNodesPhase
  have hf : ∀ (g' : Graph) (p : Col × List String),
      g'.nodes.Pairwise (fun p q => p.1 ≠ q.1) →
        (addFieldNodes g' p.1 p.2).nodes.Pairwise (fun p q => p.1 ≠ q.1) :=
    fun g' p hg => nodesDistinct_addFieldNodes p.1 p.2 g' hg
  exact foldl_preserve hf data g h

theorem nodesDistinct_addPairs : ∀ (vs : List String) (g : Graph),
    g.nodes.Pairwise (fun p q => p.1 ≠ q.1) →
      (addPairs g vs).nodes.Pairwise (fun p q => p.1 ≠ q.1)
  | [], _, h => h
  | v :: rest, g, h => by
    show (addPairs (rest.foldl (fun g u => addEdge g v u) g) rest).nodes.Pairwise _
    apply nodesDistinct_addPairs rest
    have hf : ∀ (g' : Graph) (u : String), g'.nodes.Pairwise (fun p q => p.1 ≠ q.1) →
        (addEdge g' v u).nodes.Pairwise (fun p q => p.1 ≠ q.1) :=
      fun _ u hg => nodesDistinct_addEdge hg v u
    exact foldl_preserve hf rest g h

theorem nodesDistinct_addEdgesPhase (data : List (Col × List String)) (g : Graph)
    (h : g.nodes.Pairwise (fun p q => p.1 ≠ q.1)) :
    (addEdgesPhase g data).nodes.Pairwise (fun p q => p.1 ≠ q.1) := by
  unfold addEdgesPhase
  have hf : ∀ (g' : Graph) (i : Nat), g'.nodes.Pairwise (fun p q => p.1 ≠ q.1) →
      (addPairs g' (rowValues data i)).nodes.Pairwise (fun p q => p.1 ≠ q.1) :=
    fun g' i hg => nodesDistinct_addPairs (rowValues data i) g' hg
  exact foldl_preserve hf (List.range (maxLen data)) g h

theorem calculate_metrics_gSingle : calculate_metrics gSingle = some mSingle := by
  have hac : avgClustering gSingle = some 0 := by
    norm_num [avgClustering, localClustering, nbrs, triDeg, nodeNames, edgeMem, gSingle]
  unfold calculate_metrics
  rw [hac]
  refine congrArg some ?_
  unfold mSingle
  rw [Metrics.mk.injEq]
  refine ⟨rfl, rfl, ?_, rfl, by decide, rfl, rfl⟩
  norm_num [avgConnections, degree, nodeNames, gSingle]

/-! ## Counterexamples and concrete evaluations -/

/-- C1 counterexample: when the value `"v"` is supplied under two different
fields at the same row index, the built graph contains the self-loop
`("v", "v")`, so the graph is not simple as claimed. -/
theorem C1_counterexample :
    (create_connection_graph [(Col.col1, ["v"]), (Col.col2, ["v"])]).map Graph.edges
      = some [("v", "v")] := by decide

/-- C2 counterexample: on the empty graph `calculate_metrics` does not
return a metrics dictionary — `nx.average_clustering` raises
`ZeroDivisionError` — contradicting the claim that it returns the
zero/empty/neutral values without raising. -/
theorem C2_counterexample : calculate_metrics emptyGraph = none := by decide

/-- C3 counterexample: with the spring layout selected, the layout
invocation carries no random seed (networkx's default `None`), so the caller
cannot supply a fixed seed as claimed. -/
theorem C3_counterexample :
    chooseLayout springSettings = LayoutCall.spring (3/2) none
      ∧ LayoutCall.seedArg (chooseLayout springSettings) = none :=
  ⟨rfl, rfl⟩

/-- C4 counterexample: a layout name that is not one of the known
algorithms is not rejected; the Kamada-Kawai layout is computed for it,
contradicting the claimed synchronous configuration error. -/
theorem C4_counterexample :
    bogusSettings.layout ∉ (["spring", "circular", "kamada_kawai"] : List String)
      ∧ chooseLayout bogusSettings = LayoutCall.kamadaKawai := by
  constructor <;> decide

/-- C5 counterexample: `"v"` supplied under `col1` and later under `col2`
ends up tagged with `col2` — the last-seen field — contradicting the claimed
first-seen-field-wins policy. -/
theorem C5_counterexample :
    (create_connection_graph [(Col.col1, ["v"]), (Col.col2, ["w", "v"])]).map
      (fun g => nodeTypeOf g "v") = some (some Col.col2)
      ∧ Col.col2 ≠ Col.col1 := by
  constructor <;> decide

/-- C6 counterexample: a single-node graph reports degree centrality `1`
for its node, not `0` as claimed. -/
theorem C6_counterexample :
    (create_connection_graph [(Col.col1, ["a"])]).map degreeCentrality
      = some [("a", 1)] ∧ (1 : Rat) ≠ 0 := by
  constructor <;> decide

/-- C7 counterexample: two nodes tied at centrality `1` are reported in
node insertion order (`"b"` before `"a"`), not in lexicographic order as
claimed — and the list bound is the constant `5`, not a caller parameter. -/
theorem C7_counterexample :
    (create_connection_graph [(Col.col1, ["b"]), (Col.col2, ["a"])]).bind
      (fun g => (calculate_metrics g).map Metrics.most_central_nodes)
      = some [("b", 1), ("a", 1)]
      ∧ ("a" : String) < "b" := by
  constructor
  · have hg : create_connection_graph [(Col.col1, ["b"]), (Col.col2, ["a"])] = some gBA := by
      decide
    rw [hg]
    show (calculate_metrics gBA).map Metrics.most_central_nodes = some [("b", 1), ("a", 1)]
    rw [map_most_central gBA (by decide), degreeCentrality_gBA]
    norm_num [sortDesc, insertDesc]
  · simp only [String.lt_iff_toList_lt]
    decide

/-- C8 confirmed: the example input `A = [1,2,1]`, `B = [x,y,x]` yields
nodes `{1,2,x,y}`, edges `{(1,x),(2,y)}` with no multi-edge, `degree(1) = 1`,
`degree(x) = 1`, two connected components of size two each, and density
`1/3`. -/
theorem C8_example_input :
    create_connection_graph [(Col.col1, ["1", "2", "1"]), (Col.col2, ["x", "y", "x"])] = some gC8
      ∧ nodeNames gC8 = ["1", "2", "x", "y"]
      ∧ gC8.edges = [("1", "x"), ("2", "y")]
      ∧ degree gC8 "1" = 1 ∧ degree gC8 "x" = 1
      ∧ numberConnectedComponents gC8 = 2
      ∧ (reachList gC8 "1").length = 2 ∧ (reachList gC8 "2").length = 2
      ∧ density gC8 = 1/3 := by
  refine ⟨by decide, by decide, by decide, by decide, by decide, by decide, by decide, by decide,
    ?_⟩
  norm_num [density, gC8]

/-- C10 counterexample: with `max_length = 0` and `truncate_start` true,
Python's `text[-0:]` is the whole string, so `truncate_text` returns
`'...'` followed by the entire text — length `4` here, not the claimed
`max_length + 3 = 3`. -/
theorem C10_counterexample :
    truncate_text ['a'] 0 true = ['.', '.', '.', 'a']
      ∧ (truncate_text ['a'] 0 true).length ≠ 0 + 3 := by
  constructor <;> decide

/-! ## Amended claims -/

/-- C2 amended: `calculate_metrics` raises on the empty graph (the average
clustering divides by the node count); it returns a metrics dictionary
precisely for graphs with at least one node. -/
theorem C2_amended (g : Graph) : (calculate_metrics g).isSome = true ↔ g.nodes ≠ [] := by
  unfold calculate_metrics
  cases havg : avgClustering g with
  | none => simp [(avgClustering_eq_none_iff g).mp havg]
  | some ac =>
    simp only [Option.isSome_some, true_iff]
    intro hnil
    rw [(avgClustering_eq_none_iff g).mpr hnil] at havg
    cases havg

/-- C3 amended: the caller cannot supply a random seed — whenever the
spring layout is selected, `plot_graph` invokes it with only the spacing
parameter `k` and networkx's default seed of `None`. -/
theorem C3_amended (s : VizSettings) (h : s.layout = "spring") :
    chooseLayout s = LayoutCall.spring s.spacing none := by
  simp [chooseLayout, h]

theorem C3_witness :
    springSettings.layout = "spring"
      ∧ chooseLayout springSettings = LayoutCall.spring springSettings.spacing none :=
  ⟨rfl, C3_amended springSettings rfl⟩

/-- C4 amended: an unknown layout algorithm name is not rejected — every
name other than `'spring'` and `'circular'` (known or not) is given the
Kamada-Kawai layout. -/
theorem C4_amended (s : VizSettings) (h1 : s.layout ≠ "spring") (h2 : s.layout ≠ "circular") :
    chooseLayout s = LayoutCall.kamadaKawai := by
  simp [chooseLayout, h1, h2]

theorem C4_witness :
    bogusSettings.layout ≠ "spring" ∧ bogusSettings.layout ≠ "circular"
      ∧ chooseLayout bogusSettings = LayoutCall.kamadaKawai :=
  ⟨by decide, by decide, C4_amended bogusSettings (by decide) (by decide)⟩

/-- C6 amended: each reported degree centrality equals
`degree(n) / (|V| - 1)` when `|V| > 1`, and equals `1` (not `0`) when
`|V| ≤ 1`. -/
theorem C6_amended (g : Graph) (v : String) (c : Rat)
    (h : (v, c) ∈ degreeCentrality g) :
    (g.nodes.length ≤ 1 → c = 1)
      ∧ (1 < g.nodes.length → c = (degree g v : Rat) / ((g.nodes.length : Rat) - 1)) := by
  unfold degreeCentrality at h
  constructor
  · intro hn
    rw [if_pos hn] at h
    rcases List.mem_map.mp h with ⟨p, _, he⟩
    exact (congrArg Prod.snd he).symm
  · intro hn
    rw [if_neg (by omega)] at h
    rcases List.mem_map.mp h with ⟨p, _, he⟩
    have h1 : p.1 = v := congrArg Prod.fst he
    have h2 : (degree g p.1 : Rat) / ((g.nodes.length : Rat) - 1) = c := congrArg Prod.snd he
    rw [← h2, h1]

theorem C6_witness :
    ("a", (1 : Rat)) ∈ degreeCentrality gBA
      ∧ (1 < gBA.nodes.length →
          (1 : Rat) = (degree gBA "a" : Rat) / ((gBA.nodes.length : Rat) - 1)) := by
  have hmem : ("a", (1 : Rat)) ∈ degreeCentrality gBA := by
    rw [degreeCentrality_gBA]
    exact List.mem_cons_of_mem _ (List.mem_singleton.mpr rfl)
  exact ⟨hmem, (C6_amended gBA "a" 1 hmem).2⟩

/-- C10 amended: `truncate_text` behaves as claimed except in one corner:
when `truncate_start` is true and `max_length = 0`, Python's `text[-0:]` is
the whole string, so the result is `'...'` followed by the entire text
rather than `'...'` alone. -/
theorem C10_amended (text : List Char) (n : Nat) (ts : Bool) :
    (text.length ≤ n → truncate_text text n ts = text)
      ∧ (n < text.length → 1 ≤ n → ts = true →
          truncate_text text n ts = dots ++ text.drop (text.length - n)
            ∧ (truncate_text text n ts).length = n + 3)
      ∧ (n < text.length → ts = false →
          truncate_text text n ts = text.take n ++ dots
            ∧ (truncate_text text n ts).length = n + 3)
      ∧ (n < text.length → n = 0 → ts = true → truncate_text text n ts = dots ++ text) := by
  unfold truncate_text pyTailSlice
  refine ⟨fun h => by rw [if_pos h], fun h h1 hts => ?_, fun h hts => ?_, fun h h0 hts => ?_⟩
  · subst hts
    rw [if_neg (by omega), if_pos rfl, if_neg (by omega)]
    refine ⟨rfl, ?_⟩
    simp only [List.length_append, List.length_drop, dots, List.length_cons, List.length_nil]
    omega
  · subst hts
    rw [if_neg (by omega)]
    constructor
    · simp
    · simp only [Bool.false_eq_true, if_false, List.length_append, List.length_take, dots,
        List.length_cons, List.length_nil]
      omega
  · subst hts
    subst h0
    rw [if_neg (by omega), if_pos rfl, if_pos rfl]

theorem C10_witness :
    3 < ("abcdef".toList).length ∧ 1 ≤ 3
      ∧ (truncate_text "abcdef".toList 3 true
            = dots ++ ("abcdef".toList).drop (("abcdef".toList).length - 3)
          ∧ (truncate_text "abcdef".toList 3 true).length = 3 + 3) :=
  ⟨by decide, by decide, (C10_amended "abcdef".toList 3 true).2.1 (by decide) (by decide) rfl⟩

/-- C9 confirmed: edge insertion is idempotent and symmetric — after
inserting `(a, b)` the edge `{a, b}` is present; inserting `(a, b)` and
inserting `(b, a)` yield graphs with the same edges and the same edge
count; and inserting an already-present edge leaves the edge list
unchanged. -/
theorem C9_edge_insertion (g : Graph) (a b : String) (_hab : a ≠ b) :
    edgeMem (addEdge g a b) a b = true
      ∧ (∀ x y, edgeMem (addEdge g a b) x y = edgeMem (addEdge g b a) x y)
      ∧ (addEdge g a b).edges.length = (addEdge g b a).edges.length
      ∧ (edgeMem g a b = true → (addEdge g a b).edges = g.edges) := by
  rw [addEdge_eq g a b, addEdge_eq g b a]
  by_cases hm : edgeMem g a b = true
  · have hm' : edgeMem g b a = true := by rw [← edgeMem_symm]; exact hm
    rw [if_pos hm, if_pos hm']
    refine ⟨?_, ?_, ?_, ?_⟩
    · rw [edgeMem_ensureNode, edgeMem_ensureNode]
      exact hm
    · intro x y
      rw [edgeMem_ensureNode, edgeMem_ensureNode, edgeMem_ensureNode, edgeMem_ensureNode]
    · rw [edges_ensureNode, edges_ensureNode, edges_ensureNode, edges_ensureNode]
    · intro _
      rw [edges_ensureNode, edges_ensureNode]
  · have hm' : ¬ (edgeMem g b a = true) := by rw [← edgeMem_symm]; exact hm
    rw [if_neg hm, if_neg hm']
    refine ⟨?_, ?_, ?_, ?_⟩
    · rw [edgeMem_push]
      simp
    · intro x y
      rw [edgeMem_push, edgeMem_push, edgeMem_ensureNode, edgeMem_ensureNode,
        edgeMem_ensureNode, edgeMem_ensureNode]
      congr 1
      exact decide_eq_decide.mpr (by tauto)
    · simp [List.length_append, edges_ensureNode]
    · intro hcontr
      exact absurd hcontr hm

theorem C9_witness :
    ("x" : String) ≠ "y"
      ∧ (edgeMem (addEdge emptyGraph "x" "y") "x" "y" = true
          ∧ (∀ x y, edgeMem (addEdge emptyGraph "x" "y") x y
              = edgeMem (addEdge emptyGraph "y" "x") x y)
          ∧ (addEdge emptyGraph "x" "y").edges.length
              = (addEdge emptyGraph "y" "x").edges.length
          ∧ (edgeMem emptyGraph "x" "y" = true
              → (addEdge emptyGraph "x" "y").edges = emptyGraph.edges)) :=
  ⟨by decide, C9_edge_insertion emptyGraph "x" "y" (by decide)⟩

/-- C1 amended: for every input mapping, every graph that
`create_connection_graph` returns has no parallel edges — no two entries of
the edge list denote the same unordered pair.  (Self-loops, however, do
occur when the same value string appears in two different fields at the
same row index, so the graph is not simple in general.) -/
theorem C1_amended (data : List (Col × List String)) (g : Graph)
    (h : create_connection_graph data = some g) : EdgesSimple g.edges := by
  unfold create_connection_graph at h
  split at h
  · cases h
  · cases h
    unfold addEdgesPhase
    exact foldl_preserve (fun g i hg => edgesSimple_addPairs (rowValues data i) g hg)
      (List.range (maxLen data)) (addNodesPhase emptyGraph data)
      (by rw [edges_addNodesPhase]; exact List.Pairwise.nil)

theorem C1_witness :
    create_connection_graph [(Col.col1, ["p", "q"]), (Col.col2, ["r", "r"])]
        = some ⟨[("p", some Col.col1), ("q", some Col.col1), ("r", some Col.col2)],
                [("p", "r"), ("q", "r")]⟩
      ∧ EdgesSimple [("p", "r"), ("q", "r")] :=
  ⟨by decide,
   C1_amended [(Col.col1, ["p", "q"]), (Col.col2, ["r", "r"])]
     ⟨[("p", some Col.col1), ("q", some Col.col1), ("r", some Col.col2)],
      [("p", "r"), ("q", "r")]⟩ (by decide)⟩

/-- C7 amended: the reported list is sorted by degree centrality in
descending order, its length is `min 5 |V|` with the bound `5` fixed (not
caller-supplied), and ties are broken by node insertion order: for every
centrality value `c`, the reported entries with value `c` form a prefix of
the full centrality list (which is in node insertion order) restricted to
value `c`. -/
theorem C7_amended (g : Graph) (m : Metrics) (h : calculate_metrics g = some m) :
    m.most_central_nodes.Pairwise (fun p q => q.2 ≤ p.2)
      ∧ m.most_central_nodes.length = min 5 g.nodes.length
      ∧ ∀ c : Rat, ∃ rest,
          (degreeCentrality g).filter (fun y => decide (y.2 = c))
            = m.most_central_nodes.filter (fun y => decide (y.2 = c)) ++ rest := by
  have hm : m.most_central_nodes = (sortDesc (degreeCentrality g)).take 5 := by
    unfold calculate_metrics at h
    cases havg : avgClustering g with
    | none => rw [havg] at h; cases h
    | some ac => rw [havg] at h; cases h; rfl
  refine ⟨?_, ?_, ?_⟩
  · rw [hm]
    exact List.Pairwise.sublist (List.take_sublist 5 _) (pairwise_sortDesc _)
  · rw [hm, List.length_take, length_sortDesc, length_degreeCentrality]
  · intro c
    refine ⟨((sortDesc (degreeCentrality g)).drop 5).filter (fun y => decide (y.2 = c)), ?_⟩
    rw [hm]
    conv_lhs => rw [← filter_sortDesc c (degreeCentrality g)]
    rw [← List.filter_append, List.take_append_drop]

theorem C7_witness :
    calculate_metrics gSingle = some mSingle
      ∧ (mSingle.most_central_nodes.Pairwise (fun p q => q.2 ≤ p.2)
          ∧ mSingle.most_central_nodes.length = min 5 gSingle.nodes.length
          ∧ ∀ c : Rat, ∃ rest,
              (degreeCentrality gSingle).filter (fun y => decide (y.2 = c))
                = mSingle.most_central_nodes.filter (fun y => decide (y.2 = c)) ++ rest) :=
  ⟨calculate_metrics_gSingle, C7_amended gSingle mSingle calculate_metrics_gSingle⟩

/-- C5 amended: the graph has exactly one node per value string — node
names are pairwise distinct — and the field/type tag recorded on a node is
the field under which the value was **last** seen in column processing
order (`add_node` on an existing node overwrites its attributes), not the
first. -/
theorem C5_amended (data : List (Col × List String)) (g : Graph)
    (h : create_connection_graph data = some g) :
    g.nodes.Pairwise (fun p q => p.1 ≠ q.1)
      ∧ ∀ v : String, v ≠ "" → nodeTypeOf g v = lastFieldOf data v := by
  unfold create_connection_graph at h
  split at h
  · cases h
  · cases h
    constructor
    · exact nodesDistinct_addEdgesPhase data _
        (nodesDistinct_addNodesPhase data emptyGraph List.Pairwise.nil)
    · intro v hv
      rw [nodeTypeOf_addEdgesPhase, nodeTypeOf_addNodesPhase v hv]
      rfl

theorem C5_witness :
    create_connection_graph [(Col.col1, ["v"]), (Col.col2, ["w", "v"])] = some gVW
      ∧ gVW.nodes.Pairwise (fun p q => p.1 ≠ q.1)
      ∧ ("v" : String) ≠ ""
      ∧ nodeTypeOf gVW "v" = lastFieldOf [(Col.col1, ["v"]), (Col.col2, ["w", "v"])] "v" := by
  have hg : create_connection_graph [(Col.col1, ["v"]), (Col.col2, ["w", "v"])] = some gVW := by
    decide
  have hall := C5_amended [(Col.col1, ["v"]), (Col.col2, ["w", "v"])] gVW hg
  exact ⟨hg, hall.1, by decide, hall.2 "v" (by decide)⟩

end FraudConnect
